import Mathlib

/-!
Verification of the dms-variant repository (files `dms_variant/mutation.py`
and `dms_variant/variant.py`): a parser/formatter for protein-variant
notation.

Modelling conventions:
* A Python `str` is modelled as `List Char` (a sequence of code points);
  the development is restricted to ASCII inputs, which covers every string
  the grammar of the repository produces.  (Python's `re` class `\d` and
  `int()` additionally accept non-ASCII decimal digits; that corner is
  outside this model's scope.)
* A Python `int` is modelled as `Int`; `str(int)` is modelled by
  `pyStrInt` and the builtin `int(str)` conversion by `pyInt?`, including
  its acceptance of surrounding whitespace, a sign, and underscore
  digit-group separators.
* Exceptions are modelled by `Except ParseError`.  `ValueError` raised by
  `Variant.from_str` is `ParseError.invalidVariant`; the `ValueError`
  raised by `int()` inside `Mutation.from_str`'s `del` branch is
  `ParseError.invalidDeletionLength`.
* The anchored regex `^([A-Z])(\d+)([A-Z]|del\d+|ins[A-Z]+)$` is modelled
  by `VARIANT_PATTERN_fullmatch`.  Taking the maximal digit run for the
  `position` group is equivalent to the regex's backtracking semantics
  because no alternative of the mutation group starts with a digit.
-/

/-- A Python string, as a list of code points. -/
abbrev PyStr := List Char

/-- Character class `[0-9]` (regex `\d`, restricted to ASCII). -/
def isDigit09 (c : Char) : Bool := 48 ≤ c.toNat && c.toNat ≤ 57

/-- Character class `[A-Z]`. -/
def isUpperAZ (c : Char) : Bool := 65 ≤ c.toNat && c.toNat ≤ 90

/-- The characters Python's `str.strip()` / `int()` treat as whitespace
(ASCII part): space, tab, newline, carriage return, vertical tab, form feed. -/
def isPySpace (c : Char) : Bool :=
  c.toNat = 32 || c.toNat = 9 || c.toNat = 10 || c.toNat = 13 || c.toNat = 11 || c.toNat = 12

/-- Numeric value of an ASCII digit character. -/
def digitVal (c : Char) : Nat := c.toNat - 48

/-- Value of a digit string read left to right (most significant first). -/
def natOfDigits (cs : PyStr) : Nat :=
  cs.foldl (fun a c => a * 10 + digitVal c) 0

/-- The decimal digit character for `n < 10`. -/
def digitCh : Nat → Char
  | 0 => '0' | 1 => '1' | 2 => '2' | 3 => '3' | 4 => '4'
  | 5 => '5' | 6 => '6' | 7 => '7' | 8 => '8' | _ => '9'

/-- Fuel-driven decimal rendering of a natural number (the fuel always
suffices because `natDec` passes `n + 1` and each step divides by 10). -/
def natDecCore : Nat → Nat → PyStr → PyStr
  | 0, _, acc => acc
  | fuel + 1, n, acc =>
    if n < 10 then digitCh n :: acc
    else natDecCore fuel (n / 10) (digitCh (n % 10) :: acc)

/-- Decimal rendering of a natural number, e.g. `natDec 123 = ['1','2','3']`. -/
def natDec (n : Nat) : PyStr := natDecCore (n + 1) n []

/-- Python `str(i)` for an integer `i`. -/
def pyStrInt : Int → PyStr
  | .ofNat m => natDec m
  | .negSucc m => '-' :: natDec (m + 1)

/-- Digit run with Python's underscore rule: a single `_` may appear
between two digits, never leading, trailing, or doubled.  `afterUnd`
records that the previous character was an underscore (so the next one
must be a digit, and the run must not end). -/
def digRun : PyStr → Bool → Nat → Option Nat
  | [], afterUnd, acc => if afterUnd then none else some acc
  | c :: rest, afterUnd, acc =>
    if isDigit09 c then digRun rest false (acc * 10 + digitVal c)
    else if c = '_' && !afterUnd then digRun rest true acc
    else none

/-- A non-empty digit run (underscore separators allowed), as in the
digit part of a Python integer literal. -/
def parseDigits : PyStr → Option Nat
  | [] => none
  | c :: rest => if isDigit09 c then digRun rest false (digitVal c) else none

/-- Python's builtin `int(s)` on an ASCII string: strip whitespace on both
ends, allow one optional sign, then a digit run with underscore
separators; `none` models the `ValueError` it raises otherwise. -/
def pyInt? (s : PyStr) : Option Int :=
  match ((s.dropWhile isPySpace).reverse.dropWhile isPySpace).reverse with
  | [] => none
  | c :: rest =>
    if c = '-' then (parseDigits rest).map (fun n => -(n : Int))
    else if c = '+' then (parseDigits rest).map (fun n => (n : Int))
    else (parseDigits (c :: rest)).map (fun n => (n : Int))

/-- `mutation.py`: `class MutationType(Enum)` with members WT, SUB, DEL, INS. -/
inductive MutationType where
  | WT | SUB | DEL | INS
deriving DecidableEq, Repr

/-- The concrete `Mutation` values of `mutation.py`: every value the
repository constructs is an instance of one of the four subclasses
`Wildtype`, `Missense`, `Insertion`, `Deletion`, each fixing the payload
type its `__init__` stores. -/
inductive Mutation where
  | wildtype
  | missense (mutation : PyStr)
  | insertion (mutation : PyStr)
  | deletion (mutation : Int)
deriving DecidableEq, Repr

/-- The `mutation_type` attribute each subclass `__init__` sets. -/
def Mutation.mutation_type : Mutation → MutationType
  | .wildtype => .WT
  | .missense _ => .SUB
  | .insertion _ => .INS
  | .deletion _ => .DEL

/-- The `__str__` of each subclass: `"="`, the resultant text, `"ins"+seq`,
`"del"+str(length)`. -/
def Mutation.str : Mutation → PyStr
  | .wildtype => ['=']
  | .missense m => m
  | .insertion m => 'i' :: 'n' :: 's' :: m
  | .deletion n => 'd' :: 'e' :: 'l' :: pyStrInt n

/-- The two parse failures of the repository (`ValueError` in the source;
named as in the specification). -/
inductive ParseError where
  | invalidVariant (text : PyStr)
  | invalidDeletionLength (text : PyStr)
deriving DecidableEq, Repr

/-- `Mutation.from_str`: `"="` first, then the `"ins"` prefix test, then
the `"del"` prefix test (whose remainder goes through `int()`), and any
other text becomes a `Missense` verbatim. -/
def Mutation.from_str (mutation : PyStr) : Except ParseError Mutation :=
  if mutation = ['='] then .ok .wildtype
  else if ['i', 'n', 's'].isPrefixOf mutation then .ok (.insertion (mutation.drop 3))
  else if ['d', 'e', 'l'].isPrefixOf mutation then
    match pyInt? (mutation.drop 3) with
    | some n => .ok (.deletion n)
    | none => .error (.invalidDeletionLength (mutation.drop 3))
  else .ok (.missense mutation)

/-- `variant.py`: the frozen dataclass `Variant(wildtype, position, mutation)`. -/
structure Variant where
  wildtype : PyStr
  position : Int
  mutation : Mutation
deriving DecidableEq, Repr

/-- `Variant.__str__`: `"="` when the mutation type is WT, otherwise
`f"{wildtype}{position}{mutation}"`. -/
def Variant.str (v : Variant) : PyStr :=
  if v.mutation.mutation_type = MutationType.WT then ['=']
  else v.wildtype ++ pyStrInt v.position ++ v.mutation.str

/-- The `mutation_type` property of `Variant`. -/
def Variant.mutation_type (v : Variant) : MutationType := v.mutation.mutation_type

/-- The `is_wildtype` property. -/
def Variant.is_wildtype (v : Variant) : Bool := v.mutation_type = MutationType.WT

/-- The `is_deletion` property. -/
def Variant.is_deletion (v : Variant) : Bool := v.mutation_type = MutationType.DEL

/-- The `is_insertion` property. -/
def Variant.is_insertion (v : Variant) : Bool := v.mutation_type = MutationType.INS

/-- The `is_substitution` property. -/
def Variant.is_substitution (v : Variant) : Bool := v.mutation_type = MutationType.SUB

/-- The `is_indel` property: insertion or deletion. -/
def Variant.is_indel (v : Variant) : Bool := v.is_insertion || v.is_deletion

/-- `Variant.from_del`. -/
def Variant.from_del (wildtype : PyStr) (position : Int) (length : Int) : Variant :=
  ⟨wildtype, position, .deletion length⟩

/-- `Variant.from_ins`. -/
def Variant.from_ins (wildtype : PyStr) (position : Int) (sequence : PyStr) : Variant :=
  ⟨wildtype, position, .insertion sequence⟩

/-- `Variant.from_wildtype`: the canonical sentinel `("", 0, Wildtype())`. -/
def Variant.from_wildtype : Variant := ⟨[], 0, .wildtype⟩

/-- `Variant.from_sub`. -/
def Variant.from_sub (wildtype : PyStr) (position : Int) (mutation : PyStr) : Variant :=
  ⟨wildtype, position, .missense mutation⟩

/-- The capture groups of a successful `VARIANT_PATTERN.fullmatch`. -/
structure VariantMatchData where
  wildtype : PyStr
  position : PyStr
  mutation : PyStr
deriving DecidableEq, Repr

/-- The mutation group `[A-Z]|del\d+|ins[A-Z]+` as a whole-string test:
one uppercase letter, or `del` then one-or-more digits, or `ins` then
one-or-more uppercase letters. -/
def mutationTok (cs : PyStr) : Bool :=
  (cs.length = 1 && cs.all isUpperAZ)
  || (['d', 'e', 'l'].isPrefixOf cs && !(cs.drop 3).isEmpty && (cs.drop 3).all isDigit09)
  || (['i', 'n', 's'].isPrefixOf cs && !(cs.drop 3).isEmpty && (cs.drop 3).all isUpperAZ)

/-- `VARIANT_PATTERN.fullmatch` for `^([A-Z])(\d+)([A-Z]|del\d+|ins[A-Z]+)$`,
returning the three capture groups on success. -/
def VARIANT_PATTERN_fullmatch (s : PyStr) : Option VariantMatchData :=
  match s with
  | [] => none
  | c :: rest =>
    if isUpperAZ c then
      let ds := rest.takeWhile isDigit09
      let tl := rest.dropWhile isDigit09
      if ds.isEmpty then none
      else if mutationTok tl then some ⟨[c], ds, tl⟩ else none
    else none

/-- `Variant.from_str`: the `"wildtype"`/`"="` sentinel test, then the
anchored regex; `ValueError` (here `invalidVariant`) when it fails, and
otherwise the captures are assembled with `int(position)` and
`Mutation.from_str`.  (`pyInt?` always succeeds on the digits-only
`position` capture, see `pyInt?_digits`; `.getD 0` is never taken.) -/
def Variant.from_str (variant : PyStr) : Except ParseError Variant :=
  if variant = "wildtype".toList ∨ variant = ['='] then .ok Variant.from_wildtype
  else
    match VARIANT_PATTERN_fullmatch variant with
    | none => .error (.invalidVariant variant)
    | some m =>
      match Mutation.from_str m.mutation with
      | .ok mu => .ok ⟨m.wildtype, (pyInt? m.position).getD 0, mu⟩
      | .error e => .error e

/-- `normalize` from the specification: `"wildtype"` becomes `"="`,
anything else is unchanged (named to avoid clashing with Mathlib). -/
def normalizeText (s : PyStr) : PyStr := if s = "wildtype".toList then ['='] else s

/-- Captured digit runs that are canonical decimals (no leading zeros):
the position capture, and the deletion length when the mutation capture
is `del`-prefixed. -/
def canonicalMatch (m : VariantMatchData) : Bool :=
  (natDec (natOfDigits m.position) = m.position)
  && (!(['d', 'e', 'l'].isPrefixOf m.mutation)
      || (natDec (natOfDigits (m.mutation.drop 3)) = m.mutation.drop 3))

/-- A string the top-level grammar accepts (or a sentinel) whose digit
runs are canonical decimals.  On such strings parsing-then-formatting
reproduces the input; a run with leading zeros (such as `007`) is
collapsed by `int()`. -/
def canonicalOK (s : PyStr) : Bool :=
  s = "wildtype".toList || s = ['='] ||
  ((VARIANT_PATTERN_fullmatch s).map canonicalMatch).getD false

/-- A mutation payload valid per the grammar, as claimed for the
construction round trip: one uppercase letter for a substitution, a
non-empty uppercase string for an insertion, a non-negative length for a
deletion (the wildtype sentinel takes no payload and is excluded). -/
def validPayload : Mutation → Prop
  | .wildtype => False
  | .missense r => ∃ c, r = [c] ∧ isUpperAZ c = true
  | .insertion sq => sq ≠ [] ∧ sq.all isUpperAZ = true
  | .deletion n => 0 ≤ n

deriving instance DecidableEq for Except

/-! ## Auxiliary lemmas about decimal rendering and parsing -/

theorem digitCh_isDigit : ∀ m < 10, isDigit09 (digitCh m) = true := by decide

theorem digitVal_digitCh : ∀ m < 10, digitVal (digitCh m) = m := by decide

theorem natDecCore_append (fuel : Nat) : ∀ n acc, n < fuel →
    natDecCore fuel n acc = natDecCore fuel n [] ++ acc := by
  induction fuel with
  | zero => intro n acc h; omega
  | succ fuel ih =>
    intro n acc h
    by_cases h10 : n < 10
    · simp [natDecCore, h10]
    · have hdiv : n / 10 < fuel := by
        have hself : n / 10 < n := Nat.div_lt_self (by omega) (by omega)
        omega
      simp only [natDecCore, if_neg h10]
      rw [ih _ _ hdiv, ih (n / 10) [digitCh (n % 10)] hdiv]
      simp

theorem natDecCore_fuel (fuel₁ : Nat) : ∀ fuel₂ n acc, n < fuel₁ → n < fuel₂ →
    natDecCore fuel₁ n acc = natDecCore fuel₂ n acc := by
  induction fuel₁ with
  | zero => intro _ n _ h _; omega
  | succ f ih =>
    intro fuel₂ n acc h1 h2
    cases fuel₂ with
    | zero => omega
    | succ f2 =>
      by_cases h10 : n < 10
      · simp [natDecCore, h10]
      · have hlt : n / 10 < n := Nat.div_lt_self (by omega) (by omega)
        simp only [natDecCore, if_neg h10]
        exact ih f2 (n / 10) (digitCh (n % 10) :: acc) (by omega) (by omega)

theorem natDec_eq (n : Nat) :
    natDec n = if n < 10 then [digitCh n] else natDec (n / 10) ++ [digitCh (n % 10)] := by
  by_cases h10 : n < 10
  · simp [natDec, natDecCore, h10]
  · have hlt : n / 10 < n := Nat.div_lt_self (by omega) (by omega)
    rw [if_neg h10]
    show natDecCore (n + 1) n [] = _
    have hstep : natDecCore (n + 1) n [] = natDecCore n (n / 10) [digitCh (n % 10)] := by
      simp [natDecCore, h10]
    rw [hstep, natDecCore_fuel n (n / 10 + 1) (n / 10) _ (by omega) (by omega),
      natDecCore_append (n / 10 + 1) (n / 10) _ (by omega)]
    rfl

theorem natDec_ne_nil (n : Nat) : natDec n ≠ [] := by
  rw [natDec_eq]
  split <;> simp

theorem natDec_all_digit (n : Nat) : (natDec n).all isDigit09 = true := by
  induction n using Nat.strong_induction_on with
  | _ n ih =>
    rw [natDec_eq]
    by_cases h : n < 10
    · simp [h, digitCh_isDigit n h]
    · have hlt : n / 10 < n := Nat.div_lt_self (by omega) (by omega)
      rw [if_neg h]
      simp [List.all_append, ih _ hlt, digitCh_isDigit (n % 10) (by omega)]

theorem natOfDigits_snoc (xs : PyStr) (d : Char) :
    natOfDigits (xs ++ [d]) = natOfDigits xs * 10 + digitVal d := by
  simp [natOfDigits, List.foldl_append]

theorem natOfDigits_natDec (n : Nat) : natOfDigits (natDec n) = n := by
  induction n using Nat.strong_induction_on with
  | _ n ih =>
    rw [natDec_eq]
    by_cases h : n < 10
    · simp [h, natOfDigits, digitVal_digitCh n h]
    · have hlt : n / 10 < n := Nat.div_lt_self (by omega) (by omega)
      rw [if_neg h, natOfDigits_snoc, ih _ hlt, digitVal_digitCh (n % 10) (by omega)]
      omega

theorem digRun_all_digits (cs : PyStr) : ∀ acc, cs.all isDigit09 = true →
    digRun cs false acc = some (cs.foldl (fun a c => a * 10 + digitVal c) acc) := by
  induction cs with
  | nil => intro acc _; simp [digRun]
  | cons c rest ih =>
    intro acc h
    simp only [List.all_cons, Bool.and_eq_true] at h
    rw [show digRun (c :: rest) false acc = digRun rest false (acc * 10 + digitVal c) from by
      simp [digRun, h.1]]
    rw [ih _ h.2, List.foldl_cons]

theorem parseDigits_all (cs : PyStr) (h1 : cs ≠ []) (h2 : cs.all isDigit09 = true) :
    parseDigits cs = some (natOfDigits cs) := by
  cases cs with
  | nil => exact absurd rfl h1
  | cons c rest =>
    simp only [List.all_cons, Bool.and_eq_true] at h2
    simp [parseDigits, h2.1, digRun_all_digits rest _ h2.2, natOfDigits]

theorem not_space_of_digit {c : Char} (h : isDigit09 c = true) : isPySpace c = false := by
  simp only [isDigit09, Bool.and_eq_true, decide_eq_true_eq] at h
  simp only [isPySpace, Bool.or_eq_false_iff, decide_eq_false_iff_not]
  omega

theorem digit_ne_minus {c : Char} (h : isDigit09 c = true) : c ≠ '-' := by
  rintro rfl
  exact absurd h (by decide)

theorem digit_ne_plus {c : Char} (h : isDigit09 c = true) : c ≠ '+' := by
  rintro rfl
  exact absurd h (by decide)

theorem strip_digits (cs : PyStr) (h1 : cs ≠ []) (h2 : cs.all isDigit09 = true) :
    ((cs.dropWhile isPySpace).reverse.dropWhile isPySpace).reverse = cs := by
  have hall := List.all_eq_true.mp h2
  have hd : cs.dropWhile isPySpace = cs := by
    cases cs with
    | nil => rfl
    | cons c rest =>
      rw [List.dropWhile_cons, if_neg]
      rw [not_space_of_digit (hall c (by simp))]
      simp
  rw [hd]
  cases hr : cs.reverse with
  | nil => simp at hr; exact absurd hr h1
  | cons c rest =>
    have hcmem : c ∈ cs := by
      have : c ∈ cs.reverse := by rw [hr]; simp
      simpa using this
    rw [List.dropWhile_cons, if_neg (by rw [not_space_of_digit (hall c hcmem)]; simp)]
    rw [← hr, List.reverse_reverse]

theorem pyInt?_digits (cs : PyStr) (h1 : cs ≠ []) (h2 : cs.all isDigit09 = true) :
    pyInt? cs = some (natOfDigits cs) := by
  unfold pyInt?
  rw [strip_digits cs h1 h2]
  cases cs with
  | nil => exact absurd rfl h1
  | cons c rest =>
    have hc : isDigit09 c = true := by
      have := List.all_eq_true.mp h2 c (by simp)
      simpa using this
    simp only [if_neg (digit_ne_minus hc), if_neg (digit_ne_plus hc)]
    rw [parseDigits_all _ h1 h2]
    rfl

/-! ## Auxiliary lemmas about the grammar -/

theorem isPrefixOf3 (a b c : Char) (t : PyStr) :
    [a, b, c].isPrefixOf t = true ↔ ∃ r, t = a :: b :: c :: r := by
  cases t with
  | nil => simp [List.isPrefixOf]
  | cons x1 t1 =>
    cases t1 with
    | nil => simp [List.isPrefixOf]
    | cons x2 t2 =>
      cases t2 with
      | nil => simp [List.isPrefixOf]
      | cons x3 t3 =>
        constructor
        · intro h
          simp only [List.isPrefixOf, Bool.and_eq_true, beq_iff_eq] at h
          exact ⟨t3, by simp [h.1, h.2.1, h.2.2.1]⟩
        · rintro ⟨r, heq⟩
          simp only [List.cons.injEq] at heq
          obtain ⟨rfl, rfl, rfl, _⟩ := heq
          simp [List.isPrefixOf]

theorem isPrefixOf3_self (a b c : Char) (r : PyStr) :
    [a, b, c].isPrefixOf (a :: b :: c :: r) = true :=
  (isPrefixOf3 a b c _).mpr ⟨r, rfl⟩

theorem drop3_cons (a b c : Char) (r : PyStr) : (a :: b :: c :: r).drop 3 = r := rfl

theorem takeWhile_append_not (p : Char → Bool) (xs : PyStr) (y : Char) (ys : PyStr)
    (hx : xs.all p = true) (hy : p y = false) :
    (xs ++ y :: ys).takeWhile p = xs := by
  induction xs with
  | nil => simp [List.takeWhile_cons, hy]
  | cons x xs ih =>
    simp only [List.all_cons, Bool.and_eq_true] at hx
    simp [List.takeWhile_cons, hx.1, ih hx.2]

theorem dropWhile_append_not (p : Char → Bool) (xs : PyStr) (y : Char) (ys : PyStr)
    (hx : xs.all p = true) (hy : p y = false) :
    (xs ++ y :: ys).dropWhile p = y :: ys := by
  induction xs with
  | nil => simp [List.dropWhile_cons, hy]
  | cons x xs ih =>
    simp only [List.all_cons, Bool.and_eq_true] at hx
    simp [List.dropWhile_cons, hx.1, ih hx.2]

theorem upper_not_digit {c : Char} (h : isUpperAZ c = true) : isDigit09 c = false := by
  simp only [isUpperAZ, Bool.and_eq_true, decide_eq_true_eq] at h
  simp only [isDigit09, Bool.and_eq_false_iff, decide_eq_false_iff_not]
  omega

/-- Case analysis for a string accepted by the mutation group of the regex. -/
theorem mutationTok_cases (t : PyStr) (h : mutationTok t = true) :
    (∃ c, t = [c] ∧ isUpperAZ c = true) ∨
    (∃ ds, t = 'd' :: 'e' :: 'l' :: ds ∧ ds ≠ [] ∧ ds.all isDigit09 = true) ∨
    (∃ us, t = 'i' :: 'n' :: 's' :: us ∧ us ≠ [] ∧ us.all isUpperAZ = true) := by
  simp only [mutationTok, Bool.or_eq_true, Bool.and_eq_true] at h
  rcases h with (⟨hlen, hall⟩ | ⟨⟨hpre, hne⟩, hall⟩) | ⟨⟨hpre, hne⟩, hall⟩
  · left
    obtain ⟨c, rfl⟩ := List.length_eq_one.mp (by simpa using hlen)
    exact ⟨c, rfl, by simpa using hall⟩
  · right; left
    obtain ⟨r, rfl⟩ := (isPrefixOf3 _ _ _ t).mp hpre
    refine ⟨r, rfl, ?_, by simpa [drop3_cons] using hall⟩
    intro hnil
    rw [drop3_cons, hnil] at hne
    simp at hne
  · right; right
    obtain ⟨r, rfl⟩ := (isPrefixOf3 _ _ _ t).mp hpre
    refine ⟨r, rfl, ?_, by simpa [drop3_cons] using hall⟩
    intro hnil
    rw [drop3_cons, hnil] at hne
    simp at hne

theorem mutationTok_single (c : Char) (h : isUpperAZ c = true) : mutationTok [c] = true := by
  simp [mutationTok, h]

theorem mutationTok_del (ds : PyStr) (h1 : ds ≠ []) (h2 : ds.all isDigit09 = true) :
    mutationTok ('d' :: 'e' :: 'l' :: ds) = true := by
  simp [mutationTok, isPrefixOf3_self, drop3_cons, h1, h2]

theorem mutationTok_ins (us : PyStr) (h1 : us ≠ []) (h2 : us.all isUpperAZ = true) :
    mutationTok ('i' :: 'n' :: 's' :: us) = true := by
  simp [mutationTok, isPrefixOf3_self, drop3_cons, h1, h2]

/-- The head of a string accepted by the mutation group is never a digit
(it is an uppercase letter, `d`, or `i`); this is why taking the maximal
digit run for `position` agrees with the regex. -/
theorem mutationTok_head_not_digit (t : PyStr) (h : mutationTok t = true) :
    ∀ x tl, t = x :: tl → isDigit09 x = false := by
  rintro x tl rfl
  rcases mutationTok_cases _ h with ⟨c, heq, hc⟩ | ⟨ds, heq, _, _⟩ | ⟨us, heq, _, _⟩ <;>
    cases heq
  · exact upper_not_digit hc
  · decide
  · decide

/-- Characterization of a successful match of the anchored variant regex:
the input splits as one uppercase letter, a non-empty maximal digit run,
and a mutation token, and the captures are exactly those three parts. -/
theorem fullmatch_some_iff (s : PyStr) (m : VariantMatchData) :
    VARIANT_PATTERN_fullmatch s = some m ↔
      ∃ c ds tl, s = c :: (ds ++ tl) ∧ m = ⟨[c], ds, tl⟩ ∧ isUpperAZ c = true ∧
        ds ≠ [] ∧ ds.all isDigit09 = true ∧ mutationTok tl = true := by
  constructor
  · intro h
    cases s with
    | nil => simp [VARIANT_PATTERN_fullmatch] at h
    | cons c rest =>
      by_cases hup : isUpperAZ c = true
      · simp only [VARIANT_PATTERN_fullmatch, hup, if_true] at h
        by_cases hemp : (rest.takeWhile isDigit09).isEmpty
        · rw [if_pos hemp] at h
          exact absurd h (by simp)
        · rw [if_neg hemp] at h
          by_cases htok : mutationTok (rest.dropWhile isDigit09) = true
          · rw [if_pos htok] at h
            refine ⟨c, rest.takeWhile isDigit09, rest.dropWhile isDigit09,
              by rw [List.takeWhile_append_dropWhile], ?_, hup, ?_, List.all_takeWhile, htok⟩
            · exact (Option.some.injEq _ _ ▸ h).symm
            · intro hnil
              rw [hnil] at hemp
              exact hemp rfl
          · rw [if_neg htok] at h
            exact absurd h (by simp)
      · simp only [VARIANT_PATTERN_fullmatch, hup, if_false] at h
        exact absurd h (by simp)
  · rintro ⟨c, ds, tl, rfl, rfl, hup, hne, hall, htok⟩
    have hnotdig : ∀ x xtl, tl = x :: xtl → isDigit09 x = false :=
      mutationTok_head_not_digit tl htok
    have htl : tl ≠ [] := by
      intro hnil
      rw [hnil] at htok
      exact absurd htok (by decide)
    obtain ⟨x, xtl, rfl⟩ : ∃ x xtl, tl = x :: xtl := by
      cases tl with
      | nil => exact absurd rfl htl
      | cons x xtl => exact ⟨x, xtl, rfl⟩
    have htake := takeWhile_append_not isDigit09 ds x xtl hall (hnotdig x xtl rfl)
    have hdrop := dropWhile_append_not isDigit09 ds x xtl hall (hnotdig x xtl rfl)
    simp only [VARIANT_PATTERN_fullmatch, hup, if_true, htake, hdrop]
    rw [if_neg (by simpa using hne), if_pos htok]

/-- `Mutation.from_str` on a single uppercase letter: falls through to the
`Missense` default. -/
theorem from_str_missense_tok (c : Char) (h : isUpperAZ c = true) :
    Mutation.from_str [c] = .ok (.missense [c]) := by
  unfold Mutation.from_str
  rw [if_neg, if_neg, if_neg]
  · simp [List.isPrefixOf]
  · simp [List.isPrefixOf]
  · intro heq
    simp only [List.cons.injEq] at heq
    rw [heq.1] at h
    exact absurd h (by decide)

/-- `Mutation.from_str` on `del` followed by plain digits: a `Deletion`
of their value. -/
theorem from_str_del_tok (ds : PyStr) (h1 : ds ≠ []) (h2 : ds.all isDigit09 = true) :
    Mutation.from_str ('d' :: 'e' :: 'l' :: ds) = .ok (.deletion (natOfDigits ds)) := by
  unfold Mutation.from_str
  rw [if_neg (by simp), if_neg (by simp [List.isPrefixOf]),
    if_pos (isPrefixOf3_self _ _ _ _), drop3_cons, pyInt?_digits ds h1 h2]
  rfl

/-- `Mutation.from_str` on anything starting with `ins`: an `Insertion`
of the remainder, with no check on the remainder at all. -/
theorem from_str_ins_tok (us : PyStr) :
    Mutation.from_str ('i' :: 'n' :: 's' :: us) = .ok (.insertion us) := by
  unfold Mutation.from_str
  rw [if_neg (by simp), if_pos (isPrefixOf3_self _ _ _ _), drop3_cons]

/-- A string whose head is an uppercase letter is neither `"wildtype"`
nor `"="`. -/
theorem upper_head_not_sentinel (c : Char) (r : PyStr) (h : isUpperAZ c = true) :
    ¬(c :: r = "wildtype".toList ∨ c :: r = ['=']) := by
  have hw : "wildtype".toList = ['w', 'i', 'l', 'd', 't', 'y', 'p', 'e'] := by decide
  rintro (heq | heq)
  · rw [hw] at heq
    simp only [List.cons.injEq] at heq
    rw [heq.1] at h
    exact absurd h (by decide)
  · simp only [List.cons.injEq] at heq
    rw [heq.1] at h
    exact absurd h (by decide)

/-! ## Claim theorems -/

/-- C4: `Mutation.from_str` dispatches with `"="` first, then the `"ins"`
prefix, then the `"del"` prefix, and only then the substitution fallback;
`"del5"` is `Deletion 5` and neither `del`- nor `ins`-prefixed inputs
ever become substitutions. -/
theorem mutation_from_str_dispatch (t : PyStr) :
    (t = ['='] → Mutation.from_str t = .ok .wildtype) ∧
    (['i', 'n', 's'].isPrefixOf t = true → Mutation.from_str t = .ok (.insertion (t.drop 3))) ∧
    (['d', 'e', 'l'].isPrefixOf t = true →
      (∀ r, Mutation.from_str t ≠ .ok (.missense r)) ∧
      (∀ n, pyInt? (t.drop 3) = some n → Mutation.from_str t = .ok (.deletion n))) ∧
    (t ≠ ['='] → ['i', 'n', 's'].isPrefixOf t = false → ['d', 'e', 'l'].isPrefixOf t = false →
      Mutation.from_str t = .ok (.missense t)) ∧
    Mutation.from_str ['d', 'e', 'l', '5'] = .ok (.deletion 5) := by
  refine ⟨?_, ?_, ?_, ?_, by decide⟩
  · rintro rfl
    rfl
  · intro hpre
    obtain ⟨r, rfl⟩ := (isPrefixOf3 _ _ _ _).mp hpre
    rw [from_str_ins_tok, drop3_cons]
  · intro hpre
    obtain ⟨r, rfl⟩ := (isPrefixOf3 _ _ _ _).mp hpre
    have hbranch : Mutation.from_str ('d' :: 'e' :: 'l' :: r) =
        match pyInt? r with
        | some n => .ok (.deletion n)
        | none => .error (.invalidDeletionLength r) := by
      unfold Mutation.from_str
      rw [if_neg (by simp), if_neg (by simp [List.isPrefixOf]),
        if_pos (isPrefixOf3_self _ _ _ _), drop3_cons]
    constructor
    · intro q
      rw [hbranch]
      cases pyInt? r <;> simp
    · intro n hn
      rw [hbranch, drop3_cons] at *
      rw [hn]
  · intro h1 h2 h3
    unfold Mutation.from_str
    rw [if_neg h1, if_neg (by simp [h2]), if_neg (by simp [h3])]

theorem mutation_from_str_dispatch_witness :
    Mutation.from_str ['i', 'n', 's', 'A', 'C'] = .ok (.insertion ['A', 'C']) ∧
    Mutation.from_str ['T'] = .ok (.missense ['T']) :=
  ⟨(mutation_from_str_dispatch ['i', 'n', 's', 'A', 'C']).2.1 (by decide),
   (mutation_from_str_dispatch ['T']).2.2.2.1 (by decide) (by decide) (by decide)⟩

/-- C7: `Mutation.from_str "ins"` succeeds with an empty insertion
payload, which formats back to `"ins"`. -/
theorem mutation_from_str_ins_empty :
    Mutation.from_str ['i', 'n', 's'] = .ok (.insertion []) ∧
    Mutation.str (.insertion []) = ['i', 'n', 's'] := by decide

/-- C8: formatting any `Variant` whose mutation kind is WT yields exactly
`"="`, whatever the wildtype and position fields hold. -/
theorem wildtype_formats_to_eq (v : Variant)
    (h : v.mutation.mutation_type = MutationType.WT) : Variant.str v = ['='] := by
  unfold Variant.str
  rw [if_pos h]

theorem wildtype_formats_to_eq_witness :
    (Variant.mk ['X'] 5 .wildtype).mutation.mutation_type = MutationType.WT ∧
    Variant.str (Variant.mk ['X'] 5 .wildtype) = ['='] :=
  ⟨by decide, wildtype_formats_to_eq (Variant.mk ['X'] 5 .wildtype) (by decide)⟩

/-- C9: `from_wildtype`, `from_str "="` and `from_str "wildtype"` agree on
the canonical sentinel `("", 0, Wildtype)`. -/
theorem sentinel_uniqueness :
    Variant.from_str "wildtype".toList = .ok Variant.from_wildtype ∧
    Variant.from_str ['='] = .ok Variant.from_wildtype ∧
    Variant.from_wildtype = Variant.mk [] 0 .wildtype ∧
    Variant.from_wildtype.mutation.mutation_type = MutationType.WT := by decide

/-- C10: exactly one of the four kind predicates holds for any `Variant`,
and `is_indel` is the disjunction of insertion and deletion. -/
theorem kind_exclusivity (v : Variant) :
    ((if v.is_wildtype then 1 else 0) + (if v.is_substitution then 1 else 0) +
      (if v.is_insertion then 1 else 0) + (if v.is_deletion then 1 else 0) = (1 : Nat)) ∧
    v.is_indel = (v.is_insertion || v.is_deletion) := by
  obtain ⟨w, p, m⟩ := v
  cases m <;>
    simp [Variant.is_wildtype, Variant.is_substitution, Variant.is_insertion,
      Variant.is_deletion, Variant.is_indel, Variant.mutation_type, Mutation.mutation_type]

/-- C6, counterexample: the constructors perform no payload validation —
`Deletion (-1)`, `Insertion ""` and `Missense ""` all produce `Mutation`
values (tagged with their kind) instead of being rejected. -/
theorem constructor_validation_counterexample :
    (Mutation.deletion (-1)).mutation_type = MutationType.DEL ∧
    Mutation.str (Mutation.deletion (-1)) = ['d', 'e', 'l', '-', '1'] ∧
    (Mutation.insertion []).mutation_type = MutationType.INS ∧
    (Mutation.missense []).mutation_type = MutationType.SUB := by decide

/-- C6, amended: each constructor unconditionally tags its payload with
its kind; no structural validation is performed (the module leaves
validation to callers). -/
theorem constructors_unvalidated (n : Int) (r sq : PyStr) :
    (Mutation.deletion n).mutation_type = MutationType.DEL ∧
    Mutation.str (Mutation.deletion n) = 'd' :: 'e' :: 'l' :: pyStrInt n ∧
    (Mutation.insertion sq).mutation_type = MutationType.INS ∧
    Mutation.str (Mutation.insertion sq) = 'i' :: 'n' :: 's' :: sq ∧
    (Mutation.missense r).mutation_type = MutationType.SUB ∧
    Mutation.wildtype.mutation_type = MutationType.WT :=
  ⟨rfl, rfl, rfl, rfl, rfl, rfl⟩

/-- C5, counterexample: `Mutation.from_str "del-3"` does not fail — it
returns a `Deletion` with the negative length `-3`, because Python's
`int()` accepts a sign. -/
theorem deletion_negative_counterexample :
    Mutation.from_str ['d', 'e', 'l', '-', '3'] = .ok (.deletion (-3)) ∧ (-3 : Int) < 0 := by
  decide

/-- C5, amended: for a `del`-prefixed text, `Mutation.from_str` fails with
`invalidDeletionLength` exactly when the remainder is not accepted by
Python's `int()` (which also admits a sign, surrounding whitespace, and
underscore separators — so the result can be negative); otherwise it
returns a `Deletion` of the parsed value.  `"delX"` fails. -/
theorem deletion_parse_pyint_iff (t : PyStr) (h : ['d', 'e', 'l'].isPrefixOf t = true) :
    (Mutation.from_str t = .error (.invalidDeletionLength (t.drop 3)) ↔
      pyInt? (t.drop 3) = none) ∧
    (∀ n, Mutation.from_str t = .ok (.deletion n) ↔ pyInt? (t.drop 3) = some n) ∧
    Mutation.from_str ['d', 'e', 'l', 'X'] = .error (.invalidDeletionLength ['X']) := by
  obtain ⟨r, rfl⟩ := (isPrefixOf3 _ _ _ _).mp h
  have hbranch : Mutation.from_str ('d' :: 'e' :: 'l' :: r) =
      match pyInt? r with
      | some n => .ok (.deletion n)
      | none => .error (.invalidDeletionLength r) := by
    unfold Mutation.from_str
    rw [if_neg (by simp), if_neg (by simp [List.isPrefixOf]),
      if_pos (isPrefixOf3_self _ _ _ _), drop3_cons]
  rw [drop3_cons] at *
  refine ⟨?_, ?_, by decide⟩
  · rw [hbranch]
    cases pyInt? r <;> simp
  · intro n
    rw [hbranch]
    cases pyInt? r <;> simp

theorem deletion_parse_pyint_iff_witness :
    ['d', 'e', 'l'].isPrefixOf ['d', 'e', 'l', 'X'] = true ∧
    (Mutation.from_str ['d', 'e', 'l', 'X'] =
      .error (.invalidDeletionLength (['d', 'e', 'l', 'X'].drop 3)) ↔
      pyInt? (['d', 'e', 'l', 'X'].drop 3) = none) :=
  ⟨by decide, (deletion_parse_pyint_iff ['d', 'e', 'l', 'X'] (by decide)).1⟩

/-- Any string the mutation group accepts is parsed successfully by
`Mutation.from_str` (so a successful regex match never raises). -/
theorem from_str_tok_ok (t : PyStr) (h : mutationTok t = true) :
    ∃ mu, Mutation.from_str t = .ok mu := by
  rcases mutationTok_cases t h with ⟨c, rfl, hc⟩ | ⟨ds, rfl, h1, h2⟩ | ⟨us, rfl, _, _⟩
  · exact ⟨_, from_str_missense_tok c hc⟩
  · exact ⟨_, from_str_del_tok ds h1 h2⟩
  · exact ⟨_, from_str_ins_tok us⟩

/-- C3: `Variant.from_str` fails exactly on inputs that are neither a
sentinel (`"wildtype"`/`"="`) nor a full match of the anchored pattern,
and then with `invalidVariant` carrying the original text; `"a123T"` is
such an input; and `Mutation.from_str` never produces `invalidVariant`. -/
theorem invalid_variant_error_iff (s t : PyStr) (e : ParseError) :
    (Variant.from_str s = .error e ↔
      (e = .invalidVariant s ∧
        ¬(s = "wildtype".toList ∨ s = ['='] ∨ (VARIANT_PATTERN_fullmatch s).isSome = true))) ∧
    Variant.from_str ['a', '1', '2', '3', 'T'] =
      .error (.invalidVariant ['a', '1', '2', '3', 'T']) ∧
    (∀ txt, Mutation.from_str t ≠ .error (.invalidVariant txt)) := by
  refine ⟨⟨?_, ?_⟩, by decide, ?_⟩
  · intro h
    unfold Variant.from_str at h
    by_cases hs : s = "wildtype".toList ∨ s = ['=']
    · rw [if_pos hs] at h
      exact absurd h (by simp)
    · rw [if_neg hs] at h
      cases hm : VARIANT_PATTERN_fullmatch s with
      | none =>
        rw [hm] at h
        simp only [Except.error.injEq] at h
        refine ⟨h.symm, ?_⟩
        rintro (h1 | h2 | h3)
        · exact hs (Or.inl h1)
        · exact hs (Or.inr h2)
        · exact absurd h3 (by decide)
      | some m =>
        rw [hm] at h
        have htok : mutationTok m.mutation = true := by
          obtain ⟨c, ds, tl, _, rfl, _, _, _, htok⟩ := (fullmatch_some_iff s m).mp hm
          exact htok
        obtain ⟨mu, hmu⟩ := from_str_tok_ok m.mutation htok
        have h' : (match Mutation.from_str m.mutation with
            | .ok mu => Except.ok (Variant.mk m.wildtype ((pyInt? m.position).getD 0) mu)
            | .error e => Except.error e) = Except.error e := h
        rw [hmu] at h'
        exact absurd h' (by simp)
  · rintro ⟨rfl, hno⟩
    unfold Variant.from_str
    rw [if_neg (fun hor => hno (hor.elim Or.inl (fun h2 => Or.inr (Or.inl h2))))]
    cases hm : VARIANT_PATTERN_fullmatch s with
    | none => rfl
    | some m =>
      exfalso
      exact hno (Or.inr (Or.inr (by rw [hm]; rfl)))
  · intro txt
    unfold Mutation.from_str
    by_cases h1 : t = ['=']
    · rw [if_pos h1]
      simp
    · rw [if_neg h1]
      by_cases h2 : ['i', 'n', 's'].isPrefixOf t = true
      · rw [if_pos h2]
        simp
      · rw [if_neg h2]
        by_cases h3 : ['d', 'e', 'l'].isPrefixOf t = true
        · rw [if_pos h3]
          cases pyInt? (t.drop 3) <;> simp
        · rw [if_neg h3]
          simp

theorem invalid_variant_error_iff_witness :
    (Variant.from_str ['A', 'B'] = .error (.invalidVariant ['A', 'B']) ↔
      (ParseError.invalidVariant ['A', 'B'] = .invalidVariant ['A', 'B'] ∧
        ¬(['A', 'B'] = "wildtype".toList ∨ ['A', 'B'] = ['='] ∨
          (VARIANT_PATTERN_fullmatch ['A', 'B']).isSome = true))) ∧
    Variant.from_str ['A', 'B'] = .error (.invalidVariant ['A', 'B']) :=
  ⟨(invalid_variant_error_iff ['A', 'B'] [] (.invalidVariant ['A', 'B'])).1,
   ((invalid_variant_error_iff ['A', 'B'] [] (.invalidVariant ['A', 'B'])).1).mpr
     ⟨rfl, by decide⟩⟩

/-- Computation of `Variant.from_str` on a decomposed accepted input:
uppercase letter, non-empty digit run, mutation token. -/
theorem from_str_matched (c : Char) (ds tl : PyStr) (mu : Mutation)
    (hup : isUpperAZ c = true) (hne : ds ≠ []) (hall : ds.all isDigit09 = true)
    (htok : mutationTok tl = true) (hmu : Mutation.from_str tl = .ok mu) :
    Variant.from_str (c :: (ds ++ tl)) = .ok (Variant.mk [c] (natOfDigits ds) mu) := by
  have hm : VARIANT_PATTERN_fullmatch (c :: (ds ++ tl)) = some ⟨[c], ds, tl⟩ :=
    (fullmatch_some_iff _ _).mpr ⟨c, ds, tl, rfl, rfl, hup, hne, hall, htok⟩
  have hstep : Variant.from_str (c :: (ds ++ tl)) =
      (match Mutation.from_str tl with
       | .ok mu => Except.ok (Variant.mk [c] ((pyInt? ds).getD 0) mu)
       | .error e => Except.error e) := by
    unfold Variant.from_str
    rw [if_neg (upper_head_not_sentinel c _ hup), hm]
  rw [hstep, hmu, pyInt?_digits ds hne hall]
  rfl

/-- The mutation type of a parsed mutation token is never WT (the token
grammar does not include `"="`). -/
theorem tok_mutation_type_ne_wt (tl : PyStr) (mu : Mutation) (htok : mutationTok tl = true)
    (hmu : Mutation.from_str tl = .ok mu) : ¬ mu.mutation_type = MutationType.WT := by
  rcases mutationTok_cases tl htok with ⟨c, rfl, hc⟩ | ⟨ds, rfl, h1, h2⟩ | ⟨us, rfl, _, _⟩
  · rw [from_str_missense_tok c hc] at hmu
    cases hmu
    intro hh
    simp [Mutation.mutation_type] at hh
  · rw [from_str_del_tok ds h1 h2] at hmu
    cases hmu
    intro hh
    simp [Mutation.mutation_type] at hh
  · rw [from_str_ins_tok us] at hmu
    cases hmu
    intro hh
    simp [Mutation.mutation_type] at hh

/-- `pyStrInt` on a natural number is its plain decimal rendering. -/
theorem pyStrInt_ofNat (k : Nat) : pyStrInt (k : Int) = natDec k := rfl

/-- C1, counterexample: `"A007T"` is accepted by the grammar, but
format-after-parse yields `"A7T"`, not `"A007T"` — `int()` collapses the
leading zeros of the position, so the round trip is not byte-for-byte. -/
theorem roundtrip_leading_zero_counterexample :
    (VARIANT_PATTERN_fullmatch "A007T".toList).isSome = true ∧
    (Variant.from_str "A007T".toList).map Variant.str = .ok "A7T".toList ∧
    "A7T".toList ≠ normalizeText "A007T".toList := by decide

/-- C1, amended: for every string accepted by the top-level grammar whose
digit runs (position, and deletion length if present) carry no leading
zeros — and for the sentinels — formatting the parsed value reproduces
the input, with `"wildtype"` normalizing to `"="`. -/
theorem format_parse_roundtrip_canonical (s : PyStr) (h : canonicalOK s = true) :
    (Variant.from_str s).map Variant.str = .ok (normalizeText s) := by
  simp only [canonicalOK, Bool.or_eq_true] at h
  rcases h with (hA | hB) | hC
  · rw [of_decide_eq_true hA]
    decide
  · rw [of_decide_eq_true hB]
    decide
  · cases hm : VARIANT_PATTERN_fullmatch s with
    | none =>
      rw [hm] at hC
      exact absurd hC (by decide)
    | some m =>
      rw [hm] at hC
      simp only [Option.map_some', Option.getD_some, canonicalMatch,
        Bool.and_eq_true, Bool.or_eq_true] at hC
      obtain ⟨c, ds, tl, rfl, rfl, hup, hne, hall, htok⟩ := (fullmatch_some_iff s m).mp hm
      simp only at hC
      obtain ⟨hpos, hdel⟩ := hC
      have hpos' : natDec (natOfDigits ds) = ds := of_decide_eq_true hpos
      obtain ⟨mu, hmu⟩ := from_str_tok_ok tl htok
      rw [from_str_matched c ds tl mu hup hne hall htok hmu]
      have hnorm : normalizeText (c :: (ds ++ tl)) = c :: (ds ++ tl) := by
        unfold normalizeText
        rw [if_neg]
        intro heq
        exact upper_head_not_sentinel c _ hup (Or.inl heq)
      rw [Except.map, hnorm]
      show Except.ok (Variant.str _) = _
      have hne_wt : ¬ (Variant.mk [c] ((natOfDigits ds : Nat) : Int) mu).mutation.mutation_type
          = MutationType.WT := tok_mutation_type_ne_wt tl mu htok hmu
      unfold Variant.str
      rw [if_neg hne_wt]
      show Except.ok ([c] ++ pyStrInt ((natOfDigits ds : Nat) : Int) ++ mu.str) = _
      rw [pyStrInt_ofNat, hpos']
      rcases mutationTok_cases tl htok with ⟨c', rfl, hc'⟩ | ⟨ds2, rfl, h1, h2⟩ |
        ⟨us, rfl, _, _⟩
      · rw [from_str_missense_tok c' hc'] at hmu
        cases hmu
        simp [Mutation.str]
      · rw [from_str_del_tok ds2 h1 h2] at hmu
        cases hmu
        have hdel' : natDec (natOfDigits ds2) = ds2 := by
          rcases hdel with hfalse | hcan
          · rw [isPrefixOf3_self] at hfalse
            exact absurd hfalse (by decide)
          · have := of_decide_eq_true hcan
            rwa [drop3_cons] at this
        show Except.ok ([c] ++ ds ++
          ('d' :: 'e' :: 'l' :: pyStrInt ((natOfDigits ds2 : Nat) : Int))) = _
        rw [pyStrInt_ofNat, hdel']
        simp
      · rw [from_str_ins_tok us] at hmu
        cases hmu
        simp [Mutation.str]

theorem format_parse_roundtrip_canonical_witness :
    canonicalOK "A123del2".toList = true ∧
    (Variant.from_str "A123del2".toList).map Variant.str = .ok (normalizeText "A123del2".toList) :=
  ⟨by decide, format_parse_roundtrip_canonical "A123del2".toList (by decide)⟩

/-- C2: for every uppercase wildtype letter, position `p ≥ 1`, and valid
mutation payload, parsing the formatted variant returns the same value. -/
theorem parse_format_roundtrip (w : Char) (p : Int) (m : Mutation)
    (hw : isUpperAZ w = true) (hp : 1 ≤ p) (hm : validPayload m) :
    Variant.from_str (Variant.str (Variant.mk [w] p m)) = .ok (Variant.mk [w] p m) := by
  obtain ⟨k, rfl⟩ : ∃ k : Nat, p = (k : Int) :=
    ⟨p.toNat, (Int.toNat_of_nonneg (by omega)).symm⟩
  cases m with
  | wildtype => exact hm.elim
  | missense r =>
    obtain ⟨c, rfl, hc⟩ := hm
    have hstr : Variant.str (Variant.mk [w] (k : Int) (.missense [c])) =
        w :: (natDec k ++ [c]) := by
      unfold Variant.str
      rw [if_neg (by simp [Mutation.mutation_type])]
      show [w] ++ pyStrInt (k : Int) ++ [c] = _
      rw [pyStrInt_ofNat]
      simp
    rw [hstr, from_str_matched w (natDec k) [c] (.missense [c]) hw (natDec_ne_nil k)
      (natDec_all_digit k) (mutationTok_single c hc) (from_str_missense_tok c hc),
      natOfDigits_natDec]
  | insertion sq =>
    obtain ⟨hne, hall⟩ := hm
    have hstr : Variant.str (Variant.mk [w] (k : Int) (.insertion sq)) =
        w :: (natDec k ++ ('i' :: 'n' :: 's' :: sq)) := by
      unfold Variant.str
      rw [if_neg (by simp [Mutation.mutation_type])]
      show [w] ++ pyStrInt (k : Int) ++ ('i' :: 'n' :: 's' :: sq) = _
      rw [pyStrInt_ofNat]
      simp
    rw [hstr, from_str_matched w (natDec k) ('i' :: 'n' :: 's' :: sq) (.insertion sq) hw
      (natDec_ne_nil k) (natDec_all_digit k) (mutationTok_ins sq hne hall)
      (from_str_ins_tok sq), natOfDigits_natDec]
  | deletion n =>
    obtain ⟨j, rfl⟩ : ∃ j : Nat, n = (j : Int) :=
      ⟨n.toNat, (Int.toNat_of_nonneg hm).symm⟩
    have hstr : Variant.str (Variant.mk [w] (k : Int) (.deletion (j : Int))) =
        w :: (natDec k ++ ('d' :: 'e' :: 'l' :: natDec j)) := by
      unfold Variant.str
      rw [if_neg (by simp [Mutation.mutation_type])]
      show [w] ++ pyStrInt (k : Int) ++ ('d' :: 'e' :: 'l' :: pyStrInt (j : Int)) = _
      rw [pyStrInt_ofNat, pyStrInt_ofNat]
      simp
    have hmu : Mutation.from_str ('d' :: 'e' :: 'l' :: natDec j) =
        .ok (.deletion (j : Int)) := by
      rw [from_str_del_tok (natDec j) (natDec_ne_nil j) (natDec_all_digit j),
        natOfDigits_natDec]
    rw [hstr, from_str_matched w (natDec k) ('d' :: 'e' :: 'l' :: natDec j)
      (.deletion (j : Int)) hw (natDec_ne_nil k) (natDec_all_digit k)
      (mutationTok_del (natDec j) (natDec_ne_nil j) (natDec_all_digit j)) hmu,
      natOfDigits_natDec]

theorem parse_format_roundtrip_witness :
    isUpperAZ 'A' = true ∧ (1 : Int) ≤ 123 ∧ validPayload (.deletion 2) ∧
    Variant.from_str (Variant.str (Variant.mk ['A'] 123 (.deletion 2))) =
      .ok (Variant.mk ['A'] 123 (.deletion 2)) :=
  ⟨by decide, by decide, show (0 : Int) ≤ 2 by decide,
   parse_format_roundtrip 'A' 123 (.deletion 2) (by decide) (by decide)
     (show (0 : Int) ≤ 2 by decide)⟩
